import Mathlib

/-!
Verification of `CGATCore/Pipeline/Control.py`.

Shallow embedding of the parts of the module that the specification talks
about: the gevent pool adapter (`EventPool`), the filesystem-query caching
region (`cache_os_functions`), the progress-tracking logging filter
(`LoggingFilterProgress.__init__` / `.filter`) and the DAG dump
(`ruffus_return_dag`).

Strings are modelled as `List Char`.  Python regular expressions appearing
in the source are small and fixed; each one is translated into an explicit
executable function with Python's leftmost/greedy semantics (noted at each
definition).  Python `dict`s are modelled as association lists where an
insert prepends a binding and `alookup` returns the most recent one.
Functions raising uncaught exceptions are modelled with `Option`.
-/

set_option maxRecDepth 4000

/-- Python `\s` on the ASCII range (the texts handled here are ASCII). -/
def isSpace (c : Char) : Bool :=
  c == ' ' || c == '\t' || c == '\n' || c == '\r' || c == '\x0b' || c == '\x0c'

/-- Python `str.strip()`. -/
def pstrip (s : List Char) : List Char :=
  ((s.dropWhile isSpace).reverse.dropWhile isSpace).reverse

/-- Python `re.sub(r"\s", "", s)`: remove every whitespace character. -/
def stripWs (s : List Char) : List Char :=
  s.filter (fun c => !isSpace c)

/-- Python `sub in s` (substring containment). -/
def containsSub (sub s : List Char) : Bool :=
  s.tails.any (fun t => sub.isPrefixOf t)

/-- Match the regex `<w>\s+=` at the start of `s`; on success return the
remainder of `s` after the `=`.  (`\s+` is one or more whitespace characters;
being followed by the literal `=`, the greedy/backtracking behaviour is
exactly: at least one space, then all spaces, then `=`.) -/
def matchWordWsEq (w s : List Char) : Option (List Char) :=
  if w.isPrefixOf s then
    let rest := s.drop w.length
    if (rest.takeWhile isSpace).isEmpty then none
    else
      match rest.dropWhile isSpace with
      | '=' :: r2 => some r2
      | _ => none
  else none

/-- Python `re.search(r"<w>\s+=", s) is not None`. -/
def containsWordWsEq (w s : List Char) : Bool :=
  s.tails.any (fun t => (matchWordWsEq w t).isSome)

/-- Worker for `re.split(r"<w>\s+=", s)`: scan left to right, cutting at each
(non-overlapping, leftmost) match.  `fuel` is a structural-recursion bound;
every step consumes at least one character of the remaining input, so the
initial fuel `s.length` is always sufficient and the fuel-exhausted branch is
unreachable. -/
def splitAtWordEqAux (w : List Char) : Nat → List Char → List Char → List (List Char)
  | _, cur, [] => [cur.reverse]
  | 0, cur, s => [cur.reverse ++ s]
  | fuel + 1, cur, c :: rest =>
    match matchWordWsEq w (c :: rest) with
    | some r2 => cur.reverse :: splitAtWordEqAux w fuel [] r2
    | none => splitAtWordEqAux w fuel (c :: cur) rest

/-- Python `re.split(r"<w>\s+=", s)`. -/
def splitAtWordEq (w s : List Char) : List (List Char) :=
  splitAtWordEqAux w s.length [] s

/-- Worker for Python `s.split(sep)` with a non-empty plain-string separator
(used for `record.msg.strip().split(" = ")`).  Fuel as in
`splitAtWordEqAux`. -/
def splitSepAux (sep : List Char) : Nat → List Char → List Char → List (List Char)
  | _, cur, [] => [cur.reverse]
  | 0, cur, s => [cur.reverse ++ s]
  | fuel + 1, cur, c :: rest =>
    if sep.isPrefixOf (c :: rest) then
      cur.reverse :: splitSepAux sep fuel [] ((c :: rest).drop sep.length)
    else
      splitSepAux sep fuel (c :: cur) rest

/-- Python `s.split(sep)` for a non-empty plain-string separator. -/
def pysplit (sep s : List Char) : List (List Char) :=
  splitSepAux sep s.length [] s

/-- Python `str.splitlines()` (restricted to the `\n`, `\r\n`, `\r`
terminators; the plan/log text handled here uses `\n`). -/
def splitlinesAux (cur : List Char) : List Char → List (List Char)
  | [] => if cur.isEmpty then [] else [cur.reverse]
  | '\r' :: '\n' :: rest => cur.reverse :: splitlinesAux [] rest
  | '\r' :: rest => cur.reverse :: splitlinesAux [] rest
  | '\n' :: rest => cur.reverse :: splitlinesAux [] rest
  | c :: rest => splitlinesAux (c :: cur) rest

/-- Python `str.splitlines()`. -/
def pysplitlines (s : List Char) : List (List Char) :=
  splitlinesAux [] s

/-- Python `re.sub('^\"[^"]+\"', "", s)` from `split_by_job` (line 899):
remove a leading double-quoted docstring, if any. -/
def stripDocstring (s : List Char) : List Char :=
  match s with
  | '"' :: rest =>
    if (rest.takeWhile (fun c => !(c == '"'))).isEmpty then s
    else
      match rest.dropWhile (fun c => !(c == '"')) with
      | '"' :: r2 => r2
      | _ => s
  | _ => s

/-- Try to match the tail regex `-> ([^\]]+)\]` at the start of `s`
(`[^\]]+` is greedy, so the capture runs to the character before the first
`]`; the match requires that `]` to exist and the capture to be non-empty).
Returns the capture. -/
def arrowCapture (s : List Char) : Option (List Char) :=
  match s with
  | '-' :: '>' :: ' ' :: rest =>
    let r := rest.takeWhile (fun c => !(c == ']'))
    if r.isEmpty then none
    else
      match rest.dropWhile (fun c => !(c == ']')) with
      | ']' :: _ => some r
      | _ => none
  | _ => none

/-- One candidate decomposition for `re.search(r"\[.*-> ([^\]]+)\]", s)`:
`i` is the position of the `[`, `j` the position where `-> ([^\]]+)\]`
matches, and the characters strictly between them (matched by `.*`) may not
contain a newline (`.` does not match `\n`). -/
def validPair (s : List Char) (i j : Nat) : Bool :=
  decide (i < j) && (s.getD i ' ' == '[')
    && ((s.drop (i + 1)).take (j - i - 1)).all (fun c => !(c == '\n'))
    && (arrowCapture (s.drop j)).isSome

/-- Python `re.search(r"\[.*-> ([^\]]+)\]", s)`, returning the capture group.
`re.search` picks the leftmost starting position (the first `[` that can head
a match); the greedy `.*` then pushes the `-> ` as far right as possible. -/
def extractBracket (s : List Char) : Option (List Char) :=
  match (List.range s.length).filter
      (fun i => !((List.range s.length).filter (fun j => validPair s i j)).isEmpty) with
  | [] => none
  | i0 :: _ =>
    match ((List.range s.length).filter (fun j => validPair s i0 j)).getLast? with
    | some j => arrowCapture (s.drop j)
    | none => none

/-- Python `re.sub("^[^:]+::", "", task_name)` (line 1013): strip a leading
`prefix::` namespace qualifier, if present. -/
def stripNsQualifier (task_name : List Char) : List Char :=
  if (task_name.takeWhile (fun c => !(c == ':'))).isEmpty then task_name
  else
    match task_name.dropWhile (fun c => !(c == ':')) with
    | ':' :: ':' :: rest => rest
    | _ => task_name

/-! ### EventPool (lines 104-124) -/

/-- `EventPool.__len__` (lines 106-111): `gevent.pool.Pool.__len__` (the
external gevent library) reports the real number of outstanding greenlets;
the override turns a falsy 0 into 1 so that ruffus keeps polling. -/
def EventPool_len (pool_len : Nat) : Nat :=
  if pool_len = 0 then 1 else pool_len

/-- `EventPool.next_with_timeout` (lines 119-122): delegates to the saved
`OLD_NEXT = gevent.pool.IMapUnordered.next` (external library, passed here as
a parameter) and ignores the `timeout` argument. -/
def next_with_timeout {α β γ : Type} (old_next : α → β) (inst : α) (timeout : γ) : β :=
  old_next inst

/-! ### cache_os_functions (lines 58-87 and 825-839) -/

/-- Which implementation a patchable `os` entry point currently holds. -/
inductive EntryPoint where
  | saved
  | cached
deriving DecidableEq

/-- The process state relevant to `cache_os_functions`: the five patched
entry points, plus the number of entries held by the memoization tables of
the five `@E.cached_function` wrappers (lines 65-87).  `E.cached_function`
(CGATCore/Experiment.py, not included under `src/`) is modelled from the
spec: it memoizes results keyed by the exact argument tuple in a table that
lives on the wrapper itself. -/
structure OSFunctions where
  os_stat : EntryPoint
  os_path_abspath : EntryPoint
  os_path_realpath : EntryPoint
  os_path_relpath : EntryPoint
  os_path_islink : EntryPoint
  memo_entries : Nat
deriving DecidableEq

/-- Lines 827-831: swap the five live entry points for the cached wrappers. -/
def patchCached (s : OSFunctions) : OSFunctions :=
  { s with os_stat := .cached, os_path_abspath := .cached, os_path_realpath := .cached,
           os_path_relpath := .cached, os_path_islink := .cached }

/-- Lines 835-839: restore the five saved entry points.  Note that the
source restores the entry points only; no statement clears the
`@E.cached_function` memo tables. -/
def restoreSaved (s : OSFunctions) : OSFunctions :=
  { s with os_stat := .saved, os_path_abspath := .saved, os_path_realpath := .saved,
           os_path_relpath := .saved, os_path_islink := .saved }

/-- `cache_os_functions` (lines 825-839) used as `with cache_os_functions():`.
Modelled from the spec for the stdlib part: a `@contextlib.contextmanager`
generator whose `yield` is not wrapped in `try/finally` has these exit
semantics: on normal completion of the body the code after the `yield` runs;
if the body raises, the exception is thrown into the generator at the
`yield`, the statements after the `yield` are skipped, and the exception
propagates.  `body` is the effect of the `with`-body on this state and
`body_raises` says whether it raised. -/
def cache_os_functions (body_raises : Bool) (body : OSFunctions → OSFunctions)
    (s : OSFunctions) : OSFunctions :=
  let s1 := patchCached s
  let s2 := body s1
  if body_raises then s2 else restoreSaved s2

/-- All entry points live, empty memo tables. -/
def initialOS : OSFunctions :=
  ⟨.saved, .saved, .saved, .saved, .saved, 0⟩

/-! ### LoggingFilterProgress.__init__ (lines 888-959) -/

/-- One entry of `self.tasks`: `[task_status, len(jobs), len(jobs) - to_run]`
(line 957).  `task_status` can still be Python `None` when no section marker
preceded the task header, hence the `Option`. -/
structure TaskEntry where
  status : Option (List Char)
  total : Nat
  completed : Int
deriving DecidableEq

/-- The mutable state of a `LoggingFilterProgress` instance: `self.jobs`,
`self.tasks` and `self.map_job2task` (lines 892-894).  Python dicts are
modelled as association lists; an insert prepends and `alookup` returns the
most recent binding. -/
structure TrackerState where
  jobs : List (List Char × (List Char × List Char))
  tasks : List (List Char × TaskEntry)
  map_job2task : List (List Char × List Char)
deriving DecidableEq

/-- Dict lookup: the most recently inserted binding for `k`. -/
def alookup {β : Type} (k : List Char) : List (List Char × β) → Option β
  | [] => none
  | (k', v) :: rest => if k' = k then some v else alookup k rest

/-- `split_by_job` (lines 897-917): join the block lines, drop a leading
docstring, split at `Job\s+=`, skip blank fragments and "Make missing
directories" fragments, extract the bracketed output identifier (fragments
where this fails are dropped), and classify by the "Job needs update"
marker. -/
def split_by_job (block : List (List Char)) : List (List Char × List Char) :=
  let text := stripDocstring block.flatten
  (splitAtWordEq "Job".toList text).filterMap (fun line =>
    if (pstrip line).isEmpty then none
    else if containsSub "Make missing directories".toList line then none
    else
      match extractBracket line with
      | none => none
      | some job_name =>
        some (job_name,
          if containsSub "Job needs update".toList line then "update".toList
          else "ignore".toList))

/-- A triple yielded by `split_by_task`: task name, the section status in
effect when the task's block is flushed, and the parsed job fragments. -/
abbrev TaskBlock := List Char × Option (List Char) × List (List Char × List Char)

/-- Loop body of `split_by_task` (lines 919-943).  State: accumulated
`block`, pending `task_name` (Python `None`/string; the `if task_name:`
truthiness test is false for both `None` and the empty string) and the
current section `task_status`. -/
def split_by_task_aux (block : List (List Char)) (task_name : Option (List Char))
    (task_status : Option (List Char)) : List (List Char) → List TaskBlock
  | [] =>
    match task_name with
    | some tn => if tn.isEmpty then [] else [(tn, task_status, split_by_job block)]
    | none => []
  | l :: rest =>
    let line := pstrip l
    if "Tasks which will be run".toList.isPrefixOf line then
      split_by_task_aux [] task_name (some "update".toList) rest
    else if "Tasks which are up-to-date".toList.isPrefixOf line then
      split_by_task_aux [] task_name (some "ignore".toList) rest
    else if "Task = ".toList.isPrefixOf line then
      (match task_name with
       | some tn => if tn.isEmpty then [] else [(tn, task_status, split_by_job block)]
       | none => []) ++ split_by_task_aux [] (some (line.drop 7)) task_status rest
    else if line.isEmpty then
      split_by_task_aux block task_name task_status rest
    else
      split_by_task_aux (block ++ [line]) task_name task_status rest

/-- `split_by_task` applied to the whole plan text. -/
def split_by_task (text : List Char) : List TaskBlock :=
  split_by_task_aux [] none none (pysplitlines text)

/-- Body of the `for task_name, task_status, jobs in split_by_task(...)` loop
(lines 946-959): skip `(mkdir...` bookkeeping tasks; record each job in
`self.jobs` and `self.map_job2task` (normalized label, last write wins);
count the jobs marked "update"; store
`self.tasks[task_name] = [task_status, len(jobs), len(jobs) - to_run]`. -/
def processBlock (st : TrackerState) (b : TaskBlock) : TrackerState :=
  if "(mkdir".toList.isPrefixOf b.1 then st
  else
    let st1 := b.2.2.foldl (fun s jb =>
      { s with
        jobs := (jb.1, (b.1, jb.1)) :: s.jobs,
        map_job2task := (stripWs jb.1, b.1) :: s.map_job2task }) st
    let to_run := (b.2.2.filter (fun jb => jb.2 == "update".toList)).length
    { st1 with
      tasks := (b.1, ⟨b.2.1, b.2.2.length, (b.2.2.length : Int) - (to_run : Int)⟩) :: st1.tasks }

/-- `LoggingFilterProgress.__init__` (lines 888-959): parse the static
`ruffus_text` plan into the initial tracker state. -/
def init_tracker (ruffus_text : List Char) : TrackerState :=
  (split_by_task ruffus_text).foldl processBlock ⟨[], [], []⟩

/-! ### LoggingFilterProgress.filter (lines 961-1029) -/

/-- A live log record, as far as the filter inspects it: `record.filename`
and `record.msg`. -/
structure LogRecord where
  filename : List Char
  msg : List Char
deriving DecidableEq

/-- The four progress fields the filter sets on the record
(lines 1021-1024). -/
structure ProgressFields where
  task_status : Option (List Char)
  task_total : Nat
  task_completed : Int
  task_completed_percent : ℚ
deriving DecidableEq

/-- The structured progress event sent to the logging sink as json
(lines 1014-1019, 1027). -/
structure ProgressData where
  task : List Char
  task_status : Option (List Char)
  task_total : Nat
  task_completed : Int
  task_completed_percent : ℚ
deriving DecidableEq

/-- Everything one `filter` call produces: the boolean decision (Python's
truthiness of the return value: `True` keeps the record, `None` drops it),
the tracker state afterwards, the fields attached to the record, and the
emitted progress events. -/
structure FilterOut where
  keep : Bool
  state : TrackerState
  attached : Option ProgressFields
  emitted : List ProgressData
deriving DecidableEq

/-- Common tail of `filter` (lines 1006-1029): read the (possibly updated)
task entry, compute `task_completed_percent` (`100.0 * completed / total`
when `total > 0`, else `0`), strip a `prefix::` qualifier for the displayed
name only, attach the four fields to the record, emit the json progress
event, and return `True`.  A failing task lookup would be an uncaught
`KeyError`, modelled as `none`. -/
def emitTail (st : TrackerState) (task_name : List Char) : Option FilterOut :=
  match alookup task_name st.tasks with
  | none => none
  | some e =>
    let pct : ℚ := if 0 < e.total then 100 * (e.completed : ℚ) / (e.total : ℚ) else 0
    some ⟨true, st, some ⟨e.status, e.total, e.completed, pct⟩,
      [⟨stripNsQualifier task_name, e.status, e.total, e.completed, pct⟩]⟩

/-- `LoggingFilterProgress.filter` (lines 961-1029).  Branches, in source
order: records not from ruffus `task.py` pass through; job-transition
records (`Job\s+=`) with an unparsable bracket pattern pass through
(line 973 `return True`), with an unknown normalized identifier are dropped
(line 977 bare `return`, i.e. `None`), and otherwise have their task's
`completed` count incremented when the message contains "completed";
task-transition records (`Task\s+=`) update the task status for the three
known phases and pass through unchanged otherwise; everything else passes
through. -/
def filter_step (st : TrackerState) (record : LogRecord) : Option FilterOut :=
  if !("task.py".toList.isSuffixOf record.filename) then some ⟨true, st, none, []⟩
  else if containsWordWsEq "Job".toList record.msg then
    match extractBracket record.msg with
    | none => some ⟨true, st, none, []⟩
    | some job0 =>
      let job_name := stripWs job0
      match alookup job_name st.map_job2task with
      | none => some ⟨false, st, none, []⟩
      | some task_name =>
        if containsSub "completed".toList record.msg then
          match alookup task_name st.tasks with
          | none => none
          | some e =>
            emitTail
              { st with tasks := (task_name, { e with completed := e.completed + 1 }) :: st.tasks }
              task_name
        else emitTail st task_name
  else if containsWordWsEq "Task".toList record.msg then
    match pysplit " = ".toList (pstrip record.msg) with
    | [before, task_name] =>
      match alookup task_name st.tasks with
      | none => some ⟨true, st, none, []⟩
      | some e =>
        if before = "Task enters queue".toList then
          emitTail
            { st with tasks := (task_name, { e with status := some "running".toList }) :: st.tasks }
            task_name
        else if before = "Completed Task".toList then
          emitTail
            { st with tasks := (task_name, { e with status := some "completed".toList }) :: st.tasks }
            task_name
        else if before = "Uptodate Task".toList then
          emitTail
            { st with tasks := (task_name, { e with status := some "uptodate".toList }) :: st.tasks }
            task_name
        else some ⟨true, st, none, []⟩
    | _ => some ⟨true, st, none, []⟩
  else some ⟨true, st, none, []⟩

/-- State evolution of the filter over a stream of records (an uncaught
exception aborts the run, leaving the state as it was at that point). -/
def apply_record (st : TrackerState) (r : LogRecord) : TrackerState :=
  match filter_step st r with
  | some out => out.state
  | none => st

/-- The `task_completed_percent` the filter would report for `tn` in state
`st` (0 for an unknown task, matching the "total = 0" convention). -/
def percent_of (st : TrackerState) (tn : List Char) : ℚ :=
  match alookup tn st.tasks with
  | some e => if 0 < e.total then 100 * (e.completed : ℚ) / (e.total : ℚ) else 0
  | none => 0

/-! ### ruffus_return_dag (lines 472-522) -/

/-- The task graph handed to `ruffus_return_dag` by the external scheduler:
nodes are `Fin n`; `inward t` is `t._get_inward()`, the immediate upstream
dependencies; the remaining fields are the attributes printed in a row. -/
structure RGraph where
  n : Nat
  node_func_name : Fin n → List Char
  node_is_active : Fin n → Bool
  node_output_filenames : Fin n → List (List Char)
  inward : Fin n → List (Fin n)

/-- The traversal loop of `ruffus_return_dag` (lines 510-522), returning the
sequence of nodes in emission order (one tab-separated row is written per
iteration).  Faithful detail: a popped node is added to `visited` and emitted
unconditionally; the `visited` guard is applied only when enqueueing inward
neighbours.  Termination measure: each iteration either visits a new node or
removes one already-visited occurrence from the queue while enqueueing only
unvisited nodes. -/
def dag_traverse (g : RGraph) (stack : List (Fin g.n)) (visited : Finset (Fin g.n)) :
    List (Fin g.n) :=
  match stack with
  | [] => []
  | t :: rest =>
    t :: dag_traverse g
      (rest ++ (g.inward t).filter (fun x => decide (x ∉ insert t visited)))
      (insert t visited)
termination_by (g.n - visited.card, stack.countP (fun x => decide (x ∈ visited)))
decreasing_by
  by_cases h : t ∈ visited
  · rw [Finset.insert_eq_self.mpr h]
    apply Prod.Lex.right
    have hz : ((g.inward t).filter (fun x => decide (x ∉ visited))).countP
        (fun x => decide (x ∈ visited)) = 0 := by
      rw [List.countP_eq_zero]
      intro a ha
      have := List.of_mem_filter ha
      simpa using this
    rw [List.countP_append, hz, Nat.add_zero, List.countP_cons]
    simp [h]
  · apply Prod.Lex.left
    have hlt : visited.card < g.n := by
      have hne : visited ≠ Finset.univ := by
        intro he
        exact h (he ▸ Finset.mem_univ t)
      have := Finset.card_lt_card (Finset.ssubset_univ_iff.mpr hne)
      simpa using this
    rw [Finset.card_insert_of_not_mem h]
    omega

/-- Python `str(bool)`. -/
def pybool (b : Bool) : List Char :=
  if b then "True".toList else "False".toList

/-- One emitted row (lines 515-519): tab-joined `func_name`, `is_active`,
comma-joined output files (empty string for an empty list, matching the
Python truthiness test) and comma-joined parent names. -/
def dag_row (g : RGraph) (t : Fin g.n) : List Char :=
  List.intercalate "\t".toList
    [g.node_func_name t, pybool (g.node_is_active t),
     List.intercalate ",".toList (g.node_output_filenames t),
     List.intercalate ",".toList ((g.inward t).map g.node_func_name)]

/-- `ruffus_return_dag` (lines 472-522): the header row followed by one row
per traversal step, starting from the requested plus forced targets.  (The
graph preparation and up-to-date computation of lines 484-506 belong to the
external ruffus collaborator and only produce the node attributes.) -/
def ruffus_return_dag (g : RGraph) (target_tasks forcedtorun_tasks : List (Fin g.n)) :
    List (List Char) :=
  "function\tactive\toutput_files\tparents".toList ::
    (dag_traverse g (target_tasks ++ forcedtorun_tasks) ∅).map (dag_row g)

/-- Diamond graph: node 0 depends on 1 and 2, which both depend on 3. -/
abbrev diamondG : RGraph where
  n := 4
  node_func_name := fun t => [Char.ofNat (97 + t.val)]
  node_is_active := fun _ => true
  node_output_filenames := fun _ => []
  inward := fun t =>
    if t = 0 then [1, 2] else if t = 3 then [] else [3]

/-- Two-node cycle: A (node 0) depends on B (node 1), which depends on A. -/
abbrev cycleG : RGraph where
  n := 2
  node_func_name := fun t => [Char.ofNat (97 + t.val)]
  node_is_active := fun _ => true
  node_output_filenames := fun _ => []
  inward := fun t => if t = 0 then [1] else [0]

/-- Reachability along inward (dependency) edges: the nodes the traversal
of `ruffus_return_dag` can ever enqueue starting from a given node. -/
inductive DagReaches (g : RGraph) : Fin g.n → Fin g.n → Prop where
  | refl (s : Fin g.n) : DagReaches g s s
  | step {s x t : Fin g.n} (hsx : DagReaches g s x) (hxt : t ∈ g.inward x) : DagReaches g s t

/-! ### Concrete inputs used to instantiate the theorems below -/

/-- The plan text of the spec's worked example: one queued task `align` with
two jobs, one of which needs an update. -/
def alignPlan : List Char :=
  ("Tasks which will be run\n\nTask = align\nJob  = [x -> out1.bam]\n  Job needs update\nJob  = [x -> out2.bam]\n").toList

/-- Tracker state right after parsing `alignPlan`. -/
def alignState : TrackerState :=
  init_tracker alignPlan

/-- The `align` task block as yielded by `split_by_task alignPlan`. -/
def alignBlock : TaskBlock :=
  ("align".toList, some "update".toList,
    [("out1.bam".toList, "update".toList), ("out2.bam".toList, "ignore".toList)])

/-- A live job-completion record for a known job. -/
def recCompleted : LogRecord :=
  ⟨"/home/user/ruffus/task.py".toList, "Job  = [x -> out1.bam] completed".toList⟩

/-- A live job-transition record for a known job that is not a completion. -/
def recStarted : LogRecord :=
  ⟨"task.py".toList, "Job  = [x -> out2.bam] started".toList⟩

/-- A live job-transition record whose bracket pattern cannot be parsed. -/
def recNoBracket : LogRecord :=
  ⟨"task.py".toList, "Job = something unclassifiable".toList⟩

/-- A live job-completion record whose identifier is not in the plan. -/
def recUnknownJob : LogRecord :=
  ⟨"task.py".toList, "Job = [x -> unknown.bam] completed".toList⟩

/-- A plan in which task `a`'s header is followed by a section marker before
the next task header: the enclosing section of `a` is "Tasks which will be
run", but `a` is only flushed after the up-to-date marker has switched the
mode. -/
def sectionCexPlan : List Char :=
  "Tasks which will be run\nTask = a\nTasks which are up-to-date\nTask = b\n".toList

/-- A queued task with an empty block: zero job fragments. -/
def soloPlan : List Char :=
  "Tasks which will be run\nTask = solo\n".toList

/-! ## Helper lemmas -/

theorem alookup_cons_self {β : Type} (k : List Char) (v : β) (m : List (List Char × β)) :
    alookup k ((k, v) :: m) = some v := by
  simp [alookup]

theorem alookup_cons_ne {β : Type} {k k' : List Char} (v : β) (m : List (List Char × β))
    (h : k' ≠ k) : alookup k ((k', v) :: m) = alookup k m := by
  simp [alookup, h]

theorem emitTail_some {st : TrackerState} {tn : List Char} {e : TaskEntry}
    (h : alookup tn st.tasks = some e) :
    emitTail st tn = some
      ⟨true, st,
       some ⟨e.status, e.total, e.completed,
         if 0 < e.total then 100 * (e.completed : ℚ) / (e.total : ℚ) else 0⟩,
       [⟨stripNsQualifier tn, e.status, e.total, e.completed,
         if 0 < e.total then 100 * (e.completed : ℚ) / (e.total : ℚ) else 0⟩]⟩ := by
  simp [emitTail, h]

theorem emitTail_state {st : TrackerState} {tn : List Char} {out : FilterOut}
    (h : emitTail st tn = some out) : out.state = st ∧ out.keep = true := by
  unfold emitTail at h
  rcases ha : alookup tn st.tasks with _ | e
  · rw [ha] at h
    exact absurd h (by simp)
  · rw [ha] at h
    simp only [Option.some.injEq] at h
    subst h
    exact ⟨rfl, rfl⟩

/-! ## C1: restoration of the patched os entry points -/

/-- C1: the claim states that on every exit of `cache_os_functions` —
including a failure raised inside the region — the five original entry
points are restored and the memoization table is discarded.  The generator
has no `try/finally` around its `yield` (lines 833-839), so on the failure
exit path the restore statements are skipped: `os.stat` (and the other four)
remain the cached wrappers.  Moreover no exit path ever discards the
`@E.cached_function` memo tables: after a normal exit the entry added by the
body is still present.  This theorem evaluates the model at both failing
inputs. -/
theorem c1_cache_restoration_bug :
    (cache_os_functions true (fun s => { s with memo_entries := s.memo_entries + 1 })
        initialOS).os_stat = EntryPoint.cached
    ∧ (cache_os_functions true (fun s => { s with memo_entries := s.memo_entries + 1 })
        initialOS).os_path_islink = EntryPoint.cached
    ∧ (cache_os_functions false (fun s => { s with memo_entries := s.memo_entries + 1 })
        initialOS).memo_entries = 1 := by
  decide

/-! ## C2: job-transition records whose bracket extraction fails -/

/-- C2 counterexample: the claim states that a job-transition record on
which bracket extraction fails is dropped.  On the concrete record
`"Job = something unclassifiable"` the filter returns `True` (line 973),
i.e. the decision is keep, not drop. -/
theorem c2_counterexample :
    (filter_step alignState recNoBracket).map FilterOut.keep = some true
    ∧ (filter_step alignState recNoBracket).map FilterOut.keep ≠ some false := by
  decide

/-- C2 (amended): a live job-transition record on which bracket extraction
fails is passed through unchanged — the filter returns a keep decision,
mutates no task state, attaches nothing and emits nothing. -/
theorem c2_unparsable_job_kept (st : TrackerState) (r : LogRecord)
    (hfile : "task.py".toList.isSuffixOf r.filename = true)
    (hjob : containsWordWsEq "Job".toList r.msg = true)
    (hex : extractBracket r.msg = none) :
    filter_step st r = some ⟨true, st, none, []⟩ := by
  unfold filter_step
  rw [hfile, hjob, hex]
  rfl

theorem c2_unparsable_job_kept_witness :
    "task.py".toList.isSuffixOf recNoBracket.filename = true
    ∧ containsWordWsEq "Job".toList recNoBracket.msg = true
    ∧ extractBracket recNoBracket.msg = none
    ∧ filter_step alignState recNoBracket = some ⟨true, alignState, none, []⟩ :=
  ⟨by decide, by decide, by decide,
    c2_unparsable_job_kept alignState recNoBracket (by decide) (by decide) (by decide)⟩

/-! ## C5: job-transition records with an unknown identifier -/

/-- C5: a live job-transition record whose extracted, whitespace-normalized
identifier is absent from the job index is dropped (line 977 returns `None`)
with no state mutation, no attached fields and no emission. -/
theorem c5_unknown_job_dropped (st : TrackerState) (r : LogRecord) (job0 : List Char)
    (hfile : "task.py".toList.isSuffixOf r.filename = true)
    (hjob : containsWordWsEq "Job".toList r.msg = true)
    (hex : extractBracket r.msg = some job0)
    (hmap : alookup (stripWs job0) st.map_job2task = none) :
    filter_step st r = some ⟨false, st, none, []⟩ := by
  unfold filter_step
  rw [hfile, hjob, hex]
  simp only [hmap]
  rfl

theorem c5_unknown_job_dropped_witness :
    "task.py".toList.isSuffixOf recUnknownJob.filename = true
    ∧ containsWordWsEq "Job".toList recUnknownJob.msg = true
    ∧ extractBracket recUnknownJob.msg = some "unknown.bam".toList
    ∧ alookup (stripWs "unknown.bam".toList) alignState.map_job2task = none
    ∧ filter_step alignState recUnknownJob = some ⟨false, alignState, none, []⟩ :=
  ⟨by decide, by decide, by decide, by decide,
    c5_unknown_job_dropped alignState recUnknownJob "unknown.bam".toList
      (by decide) (by decide) (by decide) (by decide)⟩

/-! ## C6: EventPool size -/

/-- C6: the pool's reported length equals the real outstanding-greenlet
count when that count is positive and is 1 when the count is 0; in
particular 0 in-flight units report 1 and 3 in-flight units report 3. -/
theorem c6_pool_len (l : Nat) (hl : 0 < l) :
    EventPool_len l = l ∧ EventPool_len 0 = 1 ∧ EventPool_len 3 = 3 := by
  refine ⟨?_, by decide, by decide⟩
  unfold EventPool_len
  rw [if_neg (Nat.pos_iff_ne_zero.mp hl)]

theorem c6_pool_len_witness :
    0 < 3 ∧ (EventPool_len 3 = 3 ∧ EventPool_len 0 = 1 ∧ EventPool_len 3 = 3) :=
  ⟨by decide, c6_pool_len 3 (by decide)⟩

/-! ## C9: next_with_timeout ignores its timeout -/

/-- C9: for every pool instance and every timeout value (including a model
of `None`), `next_with_timeout` returns exactly what the saved blocking
`OLD_NEXT` returns on that pool; the timeout argument has no effect. -/
theorem c9_timeout_ignored {α β γ : Type} (old_next : α → β) (pool : α) (t1 t2 : γ) :
    next_with_timeout old_next pool t1 = old_next pool
    ∧ next_with_timeout old_next pool t1 = next_with_timeout old_next pool t2 :=
  ⟨rfl, rfl⟩

/-! ## C4: known job completion -/

/-- C4: a live job-transition record whose bracketed identifier, after
whitespace normalization, resolves in the job index and whose message
contains "completed" makes the filter increment exactly the owning task's
completed count by 1, leave every other task's entry unchanged, keep the
record, and report `task_completed_percent = 100 * completed / total`. -/
theorem c4_known_completion (st : TrackerState) (r : LogRecord) (job0 tn : List Char)
    (e : TaskEntry)
    (hfile : "task.py".toList.isSuffixOf r.filename = true)
    (hjob : containsWordWsEq "Job".toList r.msg = true)
    (hex : extractBracket r.msg = some job0)
    (hmap : alookup (stripWs job0) st.map_job2task = some tn)
    (hdone : containsSub "completed".toList r.msg = true)
    (htask : alookup tn st.tasks = some e) :
    ∃ out, filter_step st r = some out
      ∧ out.keep = true
      ∧ out.state.tasks = (tn, { e with completed := e.completed + 1 }) :: st.tasks
      ∧ alookup tn out.state.tasks = some { e with completed := e.completed + 1 }
      ∧ (∀ tn', tn' ≠ tn → alookup tn' out.state.tasks = alookup tn' st.tasks)
      ∧ out.emitted = [⟨stripNsQualifier tn, e.status, e.total, e.completed + 1,
          if 0 < e.total then 100 * ((e.completed + 1 : Int) : ℚ) / (e.total : ℚ) else 0⟩]
      ∧ (0 < e.total →
          out.emitted = [⟨stripNsQualifier tn, e.status, e.total, e.completed + 1,
            100 * ((e.completed + 1 : Int) : ℚ) / (e.total : ℚ)⟩]) := by
  have hlook : alookup tn ({ st with
      tasks := (tn, { e with completed := e.completed + 1 }) :: st.tasks } : TrackerState).tasks
      = some { e with completed := e.completed + 1 } := alookup_cons_self _ _ _
  have hstep : filter_step st r
      = emitTail { st with tasks := (tn, { e with completed := e.completed + 1 }) :: st.tasks } tn := by
    unfold filter_step
    rw [hfile, hjob, hex]
    simp only [hmap, hdone, htask]
    rfl
  rw [emitTail_some hlook] at hstep
  refine ⟨_, hstep, rfl, rfl, alookup_cons_self _ _ _, ?_, rfl, ?_⟩
  · intro tn' h
    exact alookup_cons_ne _ _ (Ne.symm h)
  · intro ht
    rw [if_pos ht]

theorem c4_known_completion_witness :
    ∃ out, filter_step alignState recCompleted = some out
      ∧ out.keep = true
      ∧ alookup "align".toList out.state.tasks = some ⟨some "update".toList, 2, 2⟩
      ∧ out.emitted = [⟨"align".toList, some "update".toList, 2, 2, 100⟩] := by
  obtain ⟨out, h1, h2, h3, h4, h5, h6, h7⟩ :=
    c4_known_completion alignState recCompleted "out1.bam".toList "align".toList
      ⟨some "update".toList, 2, 1⟩
      (by decide) (by decide) (by decide) (by decide) (by decide) (by decide)
  refine ⟨out, h1, h2, ?_, ?_⟩
  · rw [h4]
    norm_num
  · rw [h7 (by decide)]
    norm_num
    decide

/-! ## C10: known job transition that is not a completion -/

/-- C10: a live job-transition record whose normalized identifier resolves
to a known task but whose message does not contain "completed" leaves the
tracker state entirely unchanged, yet the filter still attaches the four
progress fields to the record, emits a structured progress event, and keeps
the record. -/
theorem c10_non_completion (st : TrackerState) (r : LogRecord) (job0 tn : List Char)
    (e : TaskEntry)
    (hfile : "task.py".toList.isSuffixOf r.filename = true)
    (hjob : containsWordWsEq "Job".toList r.msg = true)
    (hex : extractBracket r.msg = some job0)
    (hmap : alookup (stripWs job0) st.map_job2task = some tn)
    (hnotdone : containsSub "completed".toList r.msg = false)
    (htask : alookup tn st.tasks = some e) :
    filter_step st r = some
      ⟨true, st,
       some ⟨e.status, e.total, e.completed,
         if 0 < e.total then 100 * (e.completed : ℚ) / (e.total : ℚ) else 0⟩,
       [⟨stripNsQualifier tn, e.status, e.total, e.completed,
         if 0 < e.total then 100 * (e.completed : ℚ) / (e.total : ℚ) else 0⟩]⟩ := by
  have hstep : filter_step st r = emitTail st tn := by
    unfold filter_step
    rw [hfile, hjob, hex]
    simp only [hmap, hnotdone]
    rfl
  rw [emitTail_some htask] at hstep
  exact hstep

theorem c10_non_completion_witness :
    "task.py".toList.isSuffixOf recStarted.filename = true
    ∧ containsSub "completed".toList recStarted.msg = false
    ∧ filter_step alignState recStarted = some
        ⟨true, alignState,
         some ⟨some "update".toList, 2, 1, 50⟩,
         [⟨"align".toList, some "update".toList, 2, 1, 50⟩]⟩ := by
  refine ⟨by decide, by decide, ?_⟩
  have h := c10_non_completion alignState recStarted "out2.bam".toList "align".toList
    ⟨some "update".toList, 2, 1⟩
    (by decide) (by decide) (by decide) (by decide) (by decide) (by decide)
  rw [h]
  norm_num
  decide

/-! ## C7: the DAG dump traversal -/

theorem dag_traverse_nil (g : RGraph) (v : Finset (Fin g.n)) :
    dag_traverse g [] v = [] := by
  rw [dag_traverse.eq_def]

theorem dag_traverse_cons (g : RGraph) (t : Fin g.n) (rest : List (Fin g.n))
    (v : Finset (Fin g.n)) :
    dag_traverse g (t :: rest) v
      = t :: dag_traverse g (rest ++ (g.inward t).filter (fun x => decide (x ∉ insert t v)))
          (insert t v) := by
  rw [dag_traverse.eq_def]

/-- Every node on the stack is eventually popped and emitted: the traversal
is total (terminates on every graph) and emits each queued node at least
once. -/
theorem dag_traverse_mem (g : RGraph) (stack : List (Fin g.n)) (visited : Finset (Fin g.n))
    (t : Fin g.n) (ht : t ∈ stack) : t ∈ dag_traverse g stack visited := by
  match stack, ht with
  | t' :: rest, ht =>
    rw [dag_traverse_cons]
    rcases List.mem_cons.mp ht with h | h
    · exact h ▸ List.mem_cons_self _ _
    · exact List.mem_cons_of_mem _
        (dag_traverse_mem g
          (rest ++ (g.inward t').filter (fun x => decide (x ∉ insert t' visited)))
          (insert t' visited) t (List.mem_append_left _ h))
termination_by (g.n - visited.card, stack.countP (fun x => decide (x ∈ visited)))
decreasing_by
  by_cases h' : t' ∈ visited
  · rw [Finset.insert_eq_self.mpr h']
    apply Prod.Lex.right
    have hz : ((g.inward t').filter (fun x => decide (x ∉ visited))).countP
        (fun x => decide (x ∈ visited)) = 0 := by
      rw [List.countP_eq_zero]
      intro a ha
      have := List.of_mem_filter ha
      simpa using this
    rw [List.countP_append, hz, Nat.add_zero, List.countP_cons]
    simp [h']
  · apply Prod.Lex.left
    have hlt : visited.card < g.n := by
      have hne : visited ≠ Finset.univ := by
        intro he
        exact h' (he ▸ Finset.mem_univ t')
      have := Finset.card_lt_card (Finset.ssubset_univ_iff.mpr hne)
      simpa using this
    rw [Finset.card_insert_of_not_mem h']
    omega

/-- Closure of the emitted-or-already-visited set under inward edges, given
the loop invariant that every visited node's inward neighbours are visited or
still queued: whenever a popped node pushes its neighbours, they are either
unvisited (hence queued and later emitted) or already visited. -/
theorem dag_traverse_closed (g : RGraph) (stack : List (Fin g.n)) (visited : Finset (Fin g.n))
    (hinv : ∀ x ∈ visited, ∀ y ∈ g.inward x, y ∈ visited ∨ y ∈ stack)
    (x : Fin g.n) (hx : x ∈ dag_traverse g stack visited ∨ x ∈ visited)
    (y : Fin g.n) (hy : y ∈ g.inward x) :
    y ∈ dag_traverse g stack visited ∨ y ∈ visited := by
  match stack with
  | [] =>
    rw [dag_traverse_nil] at hx ⊢
    rcases hx with hx | hx
    · exact absurd hx (List.not_mem_nil x)
    · rcases hinv x hx y hy with h | h
      · exact Or.inr h
      · exact absurd h (List.not_mem_nil y)
  | t :: rest =>
    rw [dag_traverse_cons] at hx ⊢
    have hinv' : ∀ a ∈ insert t visited, ∀ b ∈ g.inward a,
        b ∈ insert t visited
        ∨ b ∈ rest ++ (g.inward t).filter (fun z => decide (z ∉ insert t visited)) := by
      intro a ha b hb
      rcases Finset.mem_insert.mp ha with ha_eq | ha'
      · subst ha_eq
        by_cases hbv : b ∈ insert a visited
        · exact Or.inl hbv
        · exact Or.inr (List.mem_append_right _
            (List.mem_filter.mpr ⟨hb, decide_eq_true hbv⟩))
      · rcases hinv a ha' b hb with h | h
        · exact Or.inl (Finset.mem_insert_of_mem h)
        · rcases List.mem_cons.mp h with h_eq | h'
          · exact Or.inl (h_eq ▸ Finset.mem_insert_self _ _)
          · exact Or.inr (List.mem_append_left _ h')
    have hx' : x ∈ dag_traverse g
        (rest ++ (g.inward t).filter (fun z => decide (z ∉ insert t visited)))
        (insert t visited) ∨ x ∈ insert t visited := by
      rcases hx with hx | hx
      · rcases List.mem_cons.mp hx with hx_eq | hx'
        · exact Or.inr (hx_eq ▸ Finset.mem_insert_self _ _)
        · exact Or.inl hx'
      · exact Or.inr (Finset.mem_insert_of_mem hx)
    rcases dag_traverse_closed g
        (rest ++ (g.inward t).filter (fun z => decide (z ∉ insert t visited)))
        (insert t visited) hinv' x hx' y hy with h | h
    · exact Or.inl (List.mem_cons_of_mem _ h)
    · rcases Finset.mem_insert.mp h with h_eq | h'
      · exact Or.inl (h_eq ▸ List.mem_cons_self _ _)
      · exact Or.inr h'
termination_by (g.n - visited.card, stack.countP (fun z => decide (z ∈ visited)))
decreasing_by
  by_cases h' : t ∈ visited
  · simp only [Finset.insert_eq_self.mpr h']
    apply Prod.Lex.right
    have hz : ((g.inward t).filter (fun z => decide (z ∉ visited))).countP
        (fun z => decide (z ∈ visited)) = 0 := by
      rw [List.countP_eq_zero]
      intro a ha
      have := List.of_mem_filter ha
      simpa using this
    rw [List.countP_append, hz, Nat.add_zero, List.countP_cons]
    simp [h']
  · apply Prod.Lex.left
    have hlt : visited.card < g.n := by
      have hne : visited ≠ Finset.univ := by
        intro he
        exact h' (he ▸ Finset.mem_univ t)
      have := Finset.card_lt_card (Finset.ssubset_univ_iff.mpr hne)
      simpa using this
    rw [Finset.card_insert_of_not_mem h']
    omega

/-- BFS completeness of the dump loop: starting from an empty visited set
(as `ruffus_return_dag` does), every node reachable from a queued node along
inward edges is emitted at least once. -/
theorem dag_traverse_reaches (g : RGraph) (stack : List (Fin g.n)) (s t : Fin g.n)
    (hs : s ∈ stack) (hr : DagReaches g s t) : t ∈ dag_traverse g stack ∅ := by
  induction hr with
  | refl => exact dag_traverse_mem g stack ∅ s hs
  | step hsx hxt ih =>
    rcases dag_traverse_closed g stack ∅
        (fun a ha => absurd ha (Finset.not_mem_empty a)) _ (Or.inl ih) _ hxt with h | h
    · exact h
    · exact absurd h (Finset.not_mem_empty _)

/-- C7 counterexample: the claim states that every reachable node is emitted
at most once.  On the diamond graph (0 depends on 1 and 2, both of which
depend on 3) with target 0, node 3 is enqueued twice before its first visit
— the `visited` set is only consulted when enqueueing, and nodes are added
to it on pop — so its row is written twice. -/
theorem c7_counterexample :
    (dag_traverse diamondG [0] ∅).count 3 = 2
    ∧ ¬ ((dag_traverse diamondG [0] ∅).count 3 ≤ 1)
    ∧ (ruffus_return_dag diamondG [0] []).count "d\tTrue\t\t".toList = 2 := by
  have h : dag_traverse diamondG [0] ∅ = [0, 1, 2, 3, 3] := by
    rw [dag_traverse_cons]
    simp
    rw [dag_traverse_cons]
    simp
    rw [dag_traverse_cons]
    simp
    rw [dag_traverse_cons]
    simp
    rw [dag_traverse_cons]
    simp
    exact dag_traverse_nil _ _
  refine ⟨?_, ?_, ?_⟩
  · rw [h]
    decide
  · rw [h]
    decide
  · unfold ruffus_return_dag
    rw [show ([0] : List (Fin diamondG.n)) ++ [] = [0] from rfl, h]
    decide

/-- C7 (amended): the traversal terminates on every graph — it is a total
function — and, starting from the empty visited set as `ruffus_return_dag`
does, emits every node reachable from the requested-plus-forced stack along
inward edges at least once; on the cycle example (node 0 and node 1
depending on each other, target node 0) each of the two nodes is emitted
exactly once.  In general a node enqueued more than once before its first
visit is emitted more than once (see the counterexample), so "at most once"
holds only up to such re-enqueueing. -/
theorem c7_traversal_amended :
    (∀ (g : RGraph) (stack : List (Fin g.n)) (s t : Fin g.n),
        s ∈ stack → DagReaches g s t → t ∈ dag_traverse g stack ∅)
    ∧ dag_traverse cycleG [0] ∅ = [0, 1]
    ∧ (dag_traverse cycleG [0] ∅).count 0 = 1
    ∧ (dag_traverse cycleG [0] ∅).count 1 = 1
    ∧ ruffus_return_dag cycleG [0] []
        = ["function\tactive\toutput_files\tparents".toList,
           "a\tTrue\t\tb".toList, "b\tTrue\t\ta".toList] := by
  have h : dag_traverse cycleG [0] ∅ = [0, 1] := by
    rw [dag_traverse_cons]
    simp
    rw [dag_traverse_cons]
    simp
    exact dag_traverse_nil _ _
  refine ⟨dag_traverse_reaches, h, by rw [h]; decide, by rw [h]; decide, ?_⟩
  unfold ruffus_return_dag
  rw [show ([0] : List (Fin cycleG.n)) ++ [] = [0] from rfl, h]
  decide

theorem c7_traversal_amended_witness :
    (0 : Fin cycleG.n) ∈ [(0 : Fin cycleG.n)]
    ∧ DagReaches cycleG 0 1
    ∧ (1 : Fin cycleG.n) ∈ dag_traverse cycleG [0] ∅ :=
  ⟨by decide, DagReaches.step (DagReaches.refl 0) (by decide),
    c7_traversal_amended.1 cycleG [0] 0 1 (by decide)
      (DagReaches.step (DagReaches.refl 0) (by decide))⟩

/-! ## C3: plan parsing -/

theorem jobsFold_tasks (tn : List Char) (jobs : List (List Char × List Char))
    (s : TrackerState) :
    (jobs.foldl (fun s jb =>
      { s with jobs := (jb.1, (tn, jb.1)) :: s.jobs,
               map_job2task := (stripWs jb.1, tn) :: s.map_job2task }) s).tasks = s.tasks := by
  induction jobs generalizing s with
  | nil => rfl
  | cons jb rest ih =>
    rw [List.foldl_cons, ih]

theorem jobsFold_map_mem (tn k : List Char) (jobs : List (List Char × List Char))
    (s : TrackerState)
    (h : (∃ jb ∈ jobs, stripWs jb.1 = k) ∨ alookup k s.map_job2task = some tn) :
    alookup k ((jobs.foldl (fun s jb =>
      { s with jobs := (jb.1, (tn, jb.1)) :: s.jobs,
               map_job2task := (stripWs jb.1, tn) :: s.map_job2task }) s).map_job2task)
      = some tn := by
  induction jobs generalizing s with
  | nil =>
    rcases h with ⟨jb, hmem, _⟩ | h
    · exact absurd hmem (List.not_mem_nil jb)
    · exact h
  | cons jb rest ih =>
    rw [List.foldl_cons]
    apply ih
    by_cases hk : stripWs jb.1 = k
    · right
      show alookup k ((stripWs jb.1, tn) :: s.map_job2task) = some tn
      rw [hk]
      exact alookup_cons_self _ _ _
    · rcases h with ⟨jb', hmem, hk'⟩ | h
      · rcases List.mem_cons.mp hmem with rfl | hmem'
        · exact absurd hk' hk
        · exact Or.inl ⟨jb', hmem', hk'⟩
      · right
        show alookup k ((stripWs jb.1, tn) :: s.map_job2task) = some tn
        rw [alookup_cons_ne _ _ hk]
        exact h

theorem jobsFold_map_skip (tn k : List Char) (jobs : List (List Char × List Char))
    (s : TrackerState) (h : ∀ jb ∈ jobs, stripWs jb.1 ≠ k) :
    alookup k ((jobs.foldl (fun s jb =>
      { s with jobs := (jb.1, (tn, jb.1)) :: s.jobs,
               map_job2task := (stripWs jb.1, tn) :: s.map_job2task }) s).map_job2task)
      = alookup k s.map_job2task := by
  induction jobs generalizing s with
  | nil => rfl
  | cons jb rest ih =>
    rw [List.foldl_cons, ih _ (fun jb' h' => h jb' (List.mem_cons_of_mem _ h'))]
    exact alookup_cons_ne _ _ (h jb (List.mem_cons_self _ _))

theorem processBlock_mkdir (s : TrackerState) (b : TaskBlock)
    (h : "(mkdir".toList.isPrefixOf b.1 = true) : processBlock s b = s := by
  unfold processBlock
  rw [h]
  rfl

theorem processBlock_tasks (s : TrackerState) (b : TaskBlock)
    (h : "(mkdir".toList.isPrefixOf b.1 = false) :
    (processBlock s b).tasks
      = (b.1, ⟨b.2.1, b.2.2.length,
          (b.2.2.length : Int)
            - ((b.2.2.filter (fun jb => jb.2 == "update".toList)).length : Int)⟩) :: s.tasks := by
  unfold processBlock
  rw [h]
  simp only [Bool.false_eq_true, if_false]
  rw [jobsFold_tasks]

theorem processBlock_map_mem (s : TrackerState) (b : TaskBlock)
    (jb : List Char × List Char)
    (hmk : "(mkdir".toList.isPrefixOf b.1 = false) (hj : jb ∈ b.2.2) :
    alookup (stripWs jb.1) (processBlock s b).map_job2task = some b.1 := by
  unfold processBlock
  rw [hmk]
  simp only [Bool.false_eq_true, if_false]
  exact jobsFold_map_mem b.1 _ _ _ (Or.inl ⟨jb, hj, rfl⟩)

theorem processBlock_map_skip (s : TrackerState) (b : TaskBlock) (k : List Char)
    (h : "(mkdir".toList.isPrefixOf b.1 = false → ∀ jb ∈ b.2.2, stripWs jb.1 ≠ k) :
    alookup k (processBlock s b).map_job2task = alookup k s.map_job2task := by
  by_cases hmk : "(mkdir".toList.isPrefixOf b.1 = true
  · rw [processBlock_mkdir s b hmk]
  · unfold processBlock
    rw [Bool.not_eq_true] at hmk
    rw [hmk]
    simp only [Bool.false_eq_true, if_false]
    exact jobsFold_map_skip b.1 _ _ _ (h hmk)

theorem foldl_tasks_skip (bs : List TaskBlock) (s : TrackerState) (k : List Char)
    (h : ∀ b' ∈ bs, "(mkdir".toList.isPrefixOf b'.1 = false → b'.1 ≠ k) :
    alookup k (bs.foldl processBlock s).tasks = alookup k s.tasks := by
  induction bs generalizing s with
  | nil => rfl
  | cons b' rest ih =>
    rw [List.foldl_cons, ih _ (fun b'' h'' => h b'' (List.mem_cons_of_mem _ h''))]
    by_cases hmk : "(mkdir".toList.isPrefixOf b'.1 = true
    · rw [processBlock_mkdir s b' hmk]
    · rw [Bool.not_eq_true] at hmk
      rw [processBlock_tasks s b' hmk]
      exact alookup_cons_ne _ _ (h b' (List.mem_cons_self _ _) hmk)

theorem foldl_map_skip (bs : List TaskBlock) (s : TrackerState) (k : List Char)
    (h : ∀ b' ∈ bs, "(mkdir".toList.isPrefixOf b'.1 = false → ∀ jb ∈ b'.2.2, stripWs jb.1 ≠ k) :
    alookup k (bs.foldl processBlock s).map_job2task = alookup k s.map_job2task := by
  induction bs generalizing s with
  | nil => rfl
  | cons b' rest ih =>
    rw [List.foldl_cons, ih _ (fun b'' h'' => h b'' (List.mem_cons_of_mem _ h''))]
    exact processBlock_map_skip s b' k (h b' (List.mem_cons_self _ _))

/-- C3 counterexample: the claim says a parsed task's status is the mode of
its *enclosing* section.  In `sectionCexPlan`, task `a`'s header appears
under the "Tasks which will be run" marker, so the claim requires status
"update" (its block is empty: J = 0, U = 0).  But the source only flushes a
task at the *next* task header (or end of input), using the section status
current at that moment; the intervening up-to-date marker has switched the
mode, so `a` is stored with status "ignore". -/
theorem c3_counterexample :
    alookup "a".toList (init_tracker sectionCexPlan).tasks
      = some ⟨some "ignore".toList, 0, 0⟩
    ∧ alookup "a".toList (init_tracker sectionCexPlan).tasks
      ≠ some ⟨some "update".toList, 0, 0⟩ := by
  decide

/-- C3 (amended): for every plan text and every task block yielded by the
parser with J surviving job fragments of which U carry the "Job needs
update" marker, the tracker records total = J, completed = J − U and status
equal to the section mode *in effect when the block is flushed* (at the next
task header or end of text) — this agrees with the enclosing section's mode
whenever no section marker lies between the task's header and its flush
point — and maps every surviving job's whitespace-normalized label to the
task.  The final-state lookups require that no later non-bookkeeping block
reuses the task name or one of its normalized labels (Python dict writes are
last-write-wins). -/
theorem c3_plan_parsing_amended (text : List Char) (pre post : List TaskBlock) (b : TaskBlock)
    (hsplit : split_by_task text = pre ++ b :: post)
    (hmk : "(mkdir".toList.isPrefixOf b.1 = false)
    (hname : ∀ b' ∈ post, "(mkdir".toList.isPrefixOf b'.1 = false → b'.1 ≠ b.1)
    (hlab : ∀ b' ∈ post, "(mkdir".toList.isPrefixOf b'.1 = false →
        ∀ jb' ∈ b'.2.2, ∀ jb ∈ b.2.2, stripWs jb'.1 ≠ stripWs jb.1) :
    alookup b.1 (init_tracker text).tasks
      = some ⟨b.2.1, b.2.2.length,
          (b.2.2.length : Int)
            - ((b.2.2.filter (fun jb => jb.2 == "update".toList)).length : Int)⟩
    ∧ ∀ jb ∈ b.2.2,
        alookup (stripWs jb.1) (init_tracker text).map_job2task = some b.1 := by
  unfold init_tracker
  rw [hsplit, List.foldl_append, List.foldl_cons]
  constructor
  · rw [foldl_tasks_skip post _ _ hname, processBlock_tasks _ _ hmk]
    exact alookup_cons_self _ _ _
  · intro jb hj
    rw [foldl_map_skip post _ _
      (fun b' hb' hmkf jb' hj' => hlab b' hb' hmkf jb' hj' jb hj)]
    exact processBlock_map_mem _ _ _ hmk hj

theorem c3_plan_parsing_amended_witness :
    split_by_task alignPlan = [] ++ alignBlock :: []
    ∧ "(mkdir".toList.isPrefixOf alignBlock.1 = false
    ∧ alookup "align".toList (init_tracker alignPlan).tasks
        = some ⟨some "update".toList, 2, 1⟩
    ∧ alookup "out1.bam".toList (init_tracker alignPlan).map_job2task
        = some "align".toList := by
  refine ⟨by decide, by decide, ?_, ?_⟩
  · exact ((c3_plan_parsing_amended alignPlan [] [] alignBlock
      (by decide) (by decide) (by simp) (by simp)).1).trans (by decide)
  · exact (c3_plan_parsing_amended alignPlan [] [] alignBlock
      (by decide) (by decide) (by simp) (by simp)).2
      ("out1.bam".toList, "update".toList) (by decide)

/-! ## C8: percent invariants -/

theorem filter_step_rel (st : TrackerState) (r : LogRecord) (out : FilterOut)
    (h : filter_step st r = some out) :
    out.state.tasks = st.tasks
    ∨ ∃ k e e', alookup k st.tasks = some e
        ∧ out.state.tasks = (k, e') :: st.tasks
        ∧ e'.total = e.total ∧ e.completed ≤ e'.completed := by
  unfold filter_step at h
  split at h
  · simp only [Option.some.injEq] at h
    subst h
    left
    rfl
  · split at h
    · split at h
      · simp only [Option.some.injEq] at h
        subst h
        left
        rfl
      · simp only [] at h
        split at h
        · simp only [Option.some.injEq] at h
          subst h
          left
          rfl
        · rename_i task_name hmap
          split at h
          · split at h
            · exact absurd h (by simp)
            · rename_i e htask
              obtain ⟨hs, hk⟩ := emitTail_state h
              right
              refine ⟨task_name, e, { e with completed := e.completed + 1 }, htask, ?_, rfl, ?_⟩
              · rw [hs]
              · show e.completed ≤ e.completed + 1
                omega
          · obtain ⟨hs, hk⟩ := emitTail_state h
            left
            rw [hs]
    · split at h
      · split at h
        · rename_i before task_name hsplit2
          split at h
          · simp only [Option.some.injEq] at h
            subst h
            left
            rfl
          · rename_i e htask
            split at h
            · obtain ⟨hs, hk⟩ := emitTail_state h
              right
              exact ⟨task_name, e, { e with status := some "running".toList }, htask,
                by rw [hs], rfl, le_refl _⟩
            · split at h
              · obtain ⟨hs, hk⟩ := emitTail_state h
                right
                exact ⟨task_name, e, { e with status := some "completed".toList }, htask,
                  by rw [hs], rfl, le_refl _⟩
              · split at h
                · obtain ⟨hs, hk⟩ := emitTail_state h
                  right
                  exact ⟨task_name, e, { e with status := some "uptodate".toList }, htask,
                    by rw [hs], rfl, le_refl _⟩
                · simp only [Option.some.injEq] at h
                  subst h
                  left
                  rfl
        · simp only [Option.some.injEq] at h
          subst h
          left
          rfl
      · simp only [Option.some.injEq] at h
        subst h
        left
        rfl

theorem apply_record_rel (st : TrackerState) (r : LogRecord) :
    (apply_record st r).tasks = st.tasks
    ∨ ∃ k e e', alookup k st.tasks = some e
        ∧ (apply_record st r).tasks = (k, e') :: st.tasks
        ∧ e'.total = e.total ∧ e.completed ≤ e'.completed := by
  unfold apply_record
  rcases hfs : filter_step st r with _ | out
  · left
    rfl
  · exact filter_step_rel st r out hfs

theorem percent_of_mono (st : TrackerState) (r : LogRecord) (tn : List Char) :
    percent_of st tn ≤ percent_of (apply_record st r) tn := by
  rcases apply_record_rel st r with hsame | ⟨k, e, e', hk, hts, htot, hc⟩
  · unfold percent_of
    rw [hsame]
  · unfold percent_of
    rw [hts]
    by_cases hkt : k = tn
    · subst hkt
      rw [alookup_cons_self, hk]
      show (if 0 < e.total then 100 * (e.completed : ℚ) / (e.total : ℚ) else 0)
        ≤ (if 0 < e'.total then 100 * (e'.completed : ℚ) / (e'.total : ℚ) else 0)
      rw [htot]
      by_cases h0 : 0 < e.total
      · rw [if_pos h0, if_pos h0]
        have hcast : (e.completed : ℚ) ≤ (e'.completed : ℚ) := by exact_mod_cast hc
        have ht : (0 : ℚ) < (e.total : ℚ) := by exact_mod_cast h0
        exact (div_le_div_right ht).mpr (by nlinarith)
      · rw [if_neg h0, if_neg h0]
    · rw [alookup_cons_ne _ _ hkt]

theorem percent_of_zero (st : TrackerState) (tn : List Char) (e : TaskEntry)
    (h : alookup tn st.tasks = some e) (h0 : e.total = 0) : percent_of st tn = 0 := by
  unfold percent_of
  rw [h]
  show (if 0 < e.total then 100 * (e.completed : ℚ) / (e.total : ℚ) else 0) = 0
  rw [h0]
  norm_num

theorem processBlock_nonneg (s : TrackerState) (b : TaskBlock)
    (h : ∀ tn e, alookup tn s.tasks = some e → 0 ≤ e.completed) :
    ∀ tn e, alookup tn (processBlock s b).tasks = some e → 0 ≤ e.completed := by
  intro tn e he
  by_cases hmk : "(mkdir".toList.isPrefixOf b.1 = true
  · rw [processBlock_mkdir s b hmk] at he
    exact h tn e he
  · rw [Bool.not_eq_true] at hmk
    rw [processBlock_tasks s b hmk] at he
    by_cases hkt : b.1 = tn
    · subst hkt
      rw [alookup_cons_self] at he
      simp only [Option.some.injEq] at he
      subst he
      have hle := List.length_filter_le (fun jb => jb.2 == "update".toList) b.2.2
      show (0 : Int) ≤ (b.2.2.length : Int)
        - ((b.2.2.filter (fun jb => jb.2 == "update".toList)).length : Int)
      omega
    · rw [alookup_cons_ne _ _ hkt] at he
      exact h tn e he

theorem init_tracker_nonneg (text : List Char) :
    ∀ tn e, alookup tn (init_tracker text).tasks = some e → 0 ≤ e.completed := by
  unfold init_tracker
  generalize split_by_task text = bs
  have H : ∀ (bs : List TaskBlock) (s : TrackerState),
      (∀ tn e, alookup tn s.tasks = some e → 0 ≤ e.completed) →
      ∀ tn e, alookup tn (bs.foldl processBlock s).tasks = some e → 0 ≤ e.completed := by
    intro bs
    induction bs with
    | nil => intro s hs; exact hs
    | cons b rest ih =>
      intro s hs
      rw [List.foldl_cons]
      exact ih _ (processBlock_nonneg s b hs)
  exact H bs ⟨[], [], []⟩ (fun tn e he => by exact absurd he (by simp [alookup]))

theorem apply_record_nonneg (st : TrackerState) (r : LogRecord)
    (h : ∀ tn e, alookup tn st.tasks = some e → 0 ≤ e.completed) :
    ∀ tn e, alookup tn (apply_record st r).tasks = some e → 0 ≤ e.completed := by
  intro tn e he
  rcases apply_record_rel st r with hsame | ⟨k, e0, e0', hk, hts, htot, hc⟩
  · rw [hsame] at he
    exact h tn e he
  · rw [hts] at he
    by_cases hkt : k = tn
    · subst hkt
      rw [alookup_cons_self] at he
      simp only [Option.some.injEq] at he
      subst he
      exact le_trans (h _ _ hk) hc
    · rw [alookup_cons_ne _ _ hkt] at he
      exact h tn e he

theorem fold_nonneg (rs : List LogRecord) (st : TrackerState)
    (h : ∀ tn e, alookup tn st.tasks = some e → 0 ≤ e.completed) :
    ∀ tn e, alookup tn (rs.foldl apply_record st).tasks = some e → 0 ≤ e.completed := by
  induction rs generalizing st with
  | nil => exact h
  | cons r rest ih =>
    rw [List.foldl_cons]
    exact ih _ (apply_record_nonneg st r h)

theorem fold_mono (rs : List LogRecord) (st : TrackerState) (tn : List Char) :
    percent_of st tn ≤ percent_of (rs.foldl apply_record st) tn := by
  induction rs generalizing st with
  | nil => exact le_refl _
  | cons r rest ih =>
    rw [List.foldl_cons]
    exact le_trans (percent_of_mono st r tn) (ih (apply_record st r))

theorem percent_of_nonneg (st : TrackerState) (tn : List Char)
    (h : ∀ tn e, alookup tn st.tasks = some e → 0 ≤ e.completed) :
    0 ≤ percent_of st tn := by
  unfold percent_of
  rcases ha : alookup tn st.tasks with _ | e
  · show (0 : ℚ) ≤ 0
    exact le_refl 0
  · show (0 : ℚ) ≤ if 0 < e.total then 100 * (e.completed : ℚ) / (e.total : ℚ) else 0
    by_cases h0 : 0 < e.total
    · rw [if_pos h0]
      apply div_nonneg
      · have hc : (0 : ℚ) ≤ (e.completed : ℚ) := by exact_mod_cast h tn e ha
        nlinarith
      · exact Nat.cast_nonneg _
    · rw [if_neg h0]

/-- C8: for every plan text and every stream of records consumed by the
filter, a task's `completed_percent` is 0 whenever its total is 0, is never
negative, and is monotonically non-decreasing across the stream (the model
proves this for arbitrary record streams, which subsumes the claim's
well-formed completion records). -/
theorem c8_percent_invariants (text : List Char) (rs1 rs2 : List LogRecord) (tn : List Char) :
    percent_of (List.foldl apply_record (init_tracker text) rs1) tn
      ≤ percent_of (List.foldl apply_record (init_tracker text) (rs1 ++ rs2)) tn
    ∧ 0 ≤ percent_of (List.foldl apply_record (init_tracker text) rs1) tn
    ∧ ∀ e, alookup tn (List.foldl apply_record (init_tracker text) rs1).tasks = some e →
        e.total = 0 →
        percent_of (List.foldl apply_record (init_tracker text) rs1) tn = 0 := by
  refine ⟨?_, ?_, ?_⟩
  · rw [List.foldl_append]
    exact fold_mono rs2 _ tn
  · exact percent_of_nonneg _ tn (fold_nonneg rs1 _ (init_tracker_nonneg text))
  · intro e he h0
    exact percent_of_zero _ tn e he h0

theorem c8_percent_invariants_witness :
    alookup "solo".toList (List.foldl apply_record (init_tracker soloPlan) []).tasks
      = some ⟨some "update".toList, 0, 0⟩
    ∧ percent_of (List.foldl apply_record (init_tracker soloPlan) []) "solo".toList = 0
    ∧ 0 ≤ percent_of (List.foldl apply_record (init_tracker soloPlan) []) "solo".toList
    ∧ percent_of (List.foldl apply_record (init_tracker soloPlan) []) "solo".toList
        ≤ percent_of (List.foldl apply_record (init_tracker soloPlan) ([] ++ [recCompleted]))
            "solo".toList := by
  have h := c8_percent_invariants soloPlan [] [recCompleted] "solo".toList
  exact ⟨by decide, h.2.2 ⟨some "update".toList, 0, 0⟩ (by decide) rfl, h.2.1, h.1⟩
